import Mathlib

/-!
Verification development for the gedi_tiler repository.

Shallow embedding of:
* `gtiler/database/tiles.py` (tile identifier encoding/decoding, global 1-degree grid),
* `gtiler/common/shape_parser.py` (region shaping for the catalog API),
* `gtiler/common/granule_metadata.py` (granule grouping and fingerprinting),
* `gtiler/database/query_lib/crossovers.py` (proximity pair search),
* `scripts/check_tiles.py`, `update_tiles.py`, `gtiler/dps_tile_builder.py`
  (reconciliation, metadata merge, remote-read retry).

Machine integers do not occur (Python ints are unbounded); Python floats are
modelled as rationals.  External collaborators (shapely/geopandas predicates,
the H3 index, the spheroidal distance, the MD5 digest) are modelled as
parameters, with the geometric facts the repository documents about them taken
as explicit hypotheses of the theorems that need them.
-/

namespace GediTiler

/-- Decimal digit character for a value 0..9, as produced by Python string
formatting of a nonnegative integer. -/
def digCh (d : Nat) : Char :=
  match d with
  | 0 => '0' | 1 => '1' | 2 => '2' | 3 => '3' | 4 => '4'
  | 5 => '5' | 6 => '6' | 7 => '7' | 8 => '8' | _ => '9'

/-- Numeric value of a decimal digit character. -/
def chVal (c : Char) : Nat := c.toNat - 48

/-- Fuel-driven worker for `natDigits` (structural recursion so that the
kernel can evaluate it; the fuel is irrelevant as long as it is at least the
number being printed). -/
def natDigitsGo : Nat → Nat → List Char
  | 0, n => [digCh n]
  | fuel + 1, n =>
    if n < 10 then [digCh n]
    else natDigitsGo fuel (n / 10) ++ [digCh (n % 10)]

/-- Decimal digit characters of a natural number, most significant first:
the character list of Python `str(n)` / `f"{n:d}"` for `n ≥ 0`. -/
def natDigits (n : Nat) : List Char := natDigitsGo n n

/-- Left zero-padding to width `w`, as in Python `f"{n:02d}"` / `f"{n:03d}"`
(numbers longer than the width are kept unchanged). -/
def zeroPad (w : Nat) (ds : List Char) : List Char :=
  List.replicate (w - ds.length) '0' ++ ds

/-- Python `int(abs(x))` on a rational value: truncation of the absolute
value toward zero (equivalently, its floor, since it is nonnegative). -/
def absTrunc (q : Rat) : Nat := q.num.natAbs / q.den

/-- Bounding box of a tile, from `Tile.__init__` in `gtiler/database/tiles.py`:
`minx = lon`, `maxy = lat`, `maxx = lon + 1`, `miny = lat - 1`. -/
structure TileBounds where
  minx : Int
  miny : Int
  maxx : Int
  maxy : Int
deriving DecidableEq, Repr

/-- Embeds `_to_nesw` of `gtiler/database/tiles.py`: absolute values and
hemisphere letters of a coordinate pair. -/
def _to_nesw (lon lat : Rat) : (Rat × Rat) × (String × String) :=
  ((abs lon, abs lat), ((if lon < 0 then "W" else "E"), (if lat < 0 then "S" else "N")))

/-- Embeds `_to_text` of `gtiler/database/tiles.py`:
`f"{lat_dir}{int(lat_abs):02d}_{lon_dir}{int(lon_abs):03d}"` where the
absolute values and direction letters come from `_to_nesw`. -/
def _to_text (lon lat : Rat) : String :=
  let dirs := (_to_nesw lon lat).2
  ⟨dirs.2.data ++ zeroPad 2 (natDigits (absTrunc lat)) ++
    '_' :: dirs.1.data ++ zeroPad 3 (natDigits (absTrunc lon))⟩

/-- Character-level parse of a tile identifier against the anchored pattern
`[NS]\d\d_[EW]\d\d\d` of `Tile.__init__`, returning the derived bounding box;
`none` models the `ValueError` raised on a non-matching identifier. -/
def tileBoundsCh : List Char → Option TileBounds
  | [ns, a, b, us, ew, c, d, e] =>
    if (ns == 'N' || ns == 'S') && us == '_' && (ew == 'E' || ew == 'W') &&
        a.isDigit && b.isDigit && c.isDigit && d.isDigit && e.isDigit then
      let latn : Nat := 10 * chVal a + chVal b
      let lonn : Nat := 100 * chVal c + 10 * chVal d + chVal e
      let lat : Int := if ns == 'S' then -(latn : Int) else (latn : Int)
      let lon : Int := if ew == 'W' then -(lonn : Int) else (lonn : Int)
      some ⟨lon, lat - 1, lon + 1, lat⟩
    else none
  | _ => none

/-- Embeds `Tile.__init__` of `gtiler/database/tiles.py` (identifier to
bounding box). -/
def tile_bounds (tile_id : String) : Option TileBounds := tileBoundsCh tile_id.data

/-- Corner pairs `(i, j)` enumerated by `get_covering_tiles_for_region` in
`gtiler/database/tiles.py`: `for i in range(-180, 179): for j in range(90, -89, -1)`. -/
def tileCorners : List (Int × Int) :=
  ((List.range 359).map (fun (k : Nat) => (-180 : Int) + (k : Int))).flatMap
    (fun i => ((List.range 179).map (fun (k : Nat) => (90 : Int) - (k : Int))).map (fun j => (i, j)))

/-- The tile list built by `get_covering_tiles_for_region`: for each enumerated
corner, `Tile(_to_text(i, j))` (identifier together with its bounding box). -/
def worldTiles : List (String × TileBounds) :=
  tileCorners.filterMap (fun ij =>
    (tile_bounds (_to_text (ij.1 : Rat) (ij.2 : Rat))).map
      (fun b => (_to_text (ij.1 : Rat) (ij.2 : Rat), b)))

/-- Embeds `get_covering_tiles_for_region` of `gtiler/database/tiles.py`.
The geopandas `sjoin(..., predicate="intersects")` against the region is an
external geometry-library call; it is modelled by one Boolean box-intersection
test per region row (a multi-row region, e.g. a multipolygon split over rows,
gives several tests, and `drop_duplicates` collapses the duplicated matches,
so membership is `any`). -/
def get_covering_tiles_for_region (regionRows : List (TileBounds → Bool)) :
    List (String × TileBounds) :=
  worldTiles.filter (fun tb => regionRows.any (fun p => p tb.2))

/-- Point membership in the (closed) shapely box of a tile, the predicate the
`sjoin` uses when the region is a single point. -/
def boxContains (b : TileBounds) (x y : Rat) : Bool :=
  decide ((b.minx : Rat) ≤ x) && decide (x ≤ (b.maxx : Rat)) &&
    decide ((b.miny : Rat) ≤ y) && decide (y ≤ (b.maxy : Rat))

/-- A point strictly inside a tile's bounding box. -/
def strictlyInside (b : TileBounds) (x y : Rat) : Prop :=
  (b.minx : Rat) < x ∧ x < (b.maxx : Rat) ∧ (b.miny : Rat) < y ∧ y < (b.maxy : Rat)

instance (b : TileBounds) (x y : Rat) : Decidable (strictlyInside b x y) := by
  unfold strictlyInside; infer_instance

/-! ## `gtiler/common/shape_parser.py` -/

/-- A coordinate pair (lon, lat). -/
abbrev Pt := Rat × Rat

/-- Polygon as stored by shapely: exterior coordinate ring plus interior
rings (holes). -/
structure ShpPolygon where
  exterior : List Pt
  holes : List (List Pt)

/-- One row of a GeoDataFrame geometry column: a polygon (one part) or a
multipolygon (several parts). -/
abbrev ShpRow := List ShpPolygon

/-- A GeoDataFrame geometry column: a list of rows. -/
abbrev Shape := List ShpRow

/-- Exterior coordinate count of one row: `len(row.exterior.coords)` for a
polygon, the sum over the parts for a multipolygon. -/
def rowCoords (row : ShpRow) : Nat :=
  (row.map (fun p => p.exterior.length)).sum

/-- Embeds `get_n_coords` of `gtiler/common/shape_parser.py`: total exterior
coordinate count over the rows; interior rings are not counted. -/
def get_n_coords (shp : Shape) : Nat :=
  (shp.map rowCoords).sum

/-- External geometry-library collaborators used by the shape parser, together
with the denotation of a coordinate ring.  `ringSet` gives the closed region
enclosed by an exterior or interior ring; `sjoinPred` is the geopandas
`sjoin(..., predicate="intersects")` test between one 5-degree box and one
shape row; `unionAll` is shapely `union_all`; `orientPolygons` is shapely
`orient_polygons` applied to one row. -/
structure GeomEnv where
  ringSet : List Pt → Set Pt
  sjoinPred : TileBounds → ShpRow → Bool
  unionAll : List TileBounds → ShpRow
  orientPolygons : Bool → ShpRow → ShpRow

/-- Point set denoted by a polygon: the exterior region minus the holes. -/
def polySet (env : GeomEnv) (p : ShpPolygon) : Set Pt :=
  env.ringSet p.exterior \ ⋃ h ∈ p.holes, env.ringSet h

/-- Point set denoted by one GeoDataFrame row. -/
def rowSet (env : GeomEnv) (row : ShpRow) : Set Pt := ⋃ p ∈ row, polySet env p

/-- Point set denoted by a whole GeoDataFrame geometry column. -/
def shapeSet (env : GeomEnv) (shp : Shape) : Set Pt := ⋃ row ∈ shp, rowSet env row

/-- Closed rectangle denoted by a (tile) bounding box. -/
def boxSet (b : TileBounds) : Set Pt :=
  {q | (b.minx : Rat) ≤ q.1 ∧ q.1 ≤ (b.maxx : Rat) ∧
       (b.miny : Rat) ≤ q.2 ∧ q.2 ≤ (b.maxy : Rat)}

/-- Valid geographic coordinates: the EPSG:4326 domain. -/
def worldSet : Set Pt :=
  {q | -180 ≤ q.1 ∧ q.1 ≤ 180 ∧ -90 ≤ q.2 ∧ q.2 ≤ 90}

/-- The auxiliary 5-degree grid enumerated by `get_covering_region_for_shape`
(`for i in range(-180, 180, 5): for j in range(90, -90, -5): box(i, j-5, i+5, j)`). -/
def grid5 : List TileBounds :=
  ((List.range 72).map (fun (k : Nat) => (-180 : Int) + 5 * (k : Int))).flatMap
    (fun i => ((List.range 36).map (fun (k : Nat) => (90 : Int) - 5 * (k : Int))).map
      (fun j => ⟨i, j - 5, i + 5, j⟩))

/-- Embeds `get_covering_region_for_shape` of `gtiler/common/shape_parser.py`
at `tile_size = 5` (the only size used by `check_and_format_shape`): the
union of the grid boxes that the `sjoin` finds to intersect some row of the
input shape, returned as a single-geometry GeoSeries. -/
def get_covering_region_for_shape (env : GeomEnv) (shp : Shape) : ShpRow :=
  env.unionAll (grid5.filter (fun b => shp.any (fun row => env.sjoinPred b row)))

/-- Embeds `close_holes` of `gtiler/common/shape_parser.py`: every polygon is
replaced by the polygon of its exterior ring. -/
def close_holes (shp : Shape) : Shape :=
  shp.map (fun row => row.map (fun p => ⟨p.exterior, []⟩))

/-- Embeds `orient_shape` of `gtiler/common/shape_parser.py`: shapely
`orient_polygons` applied to every row. -/
def orient_shape (env : GeomEnv) (shp : Shape) (exterior_cw : Bool) : Shape :=
  shp.map (env.orientPolygons exterior_cw)

/-- Failure modes of `check_and_format_shape`. -/
inductive ShapeErr where
  | valueErrorMaxCoords
  | detailError (n_coords : Nat)
  | valueErrorOverBudget (n_coords : Nat)
deriving DecidableEq, Repr

/-- Embeds `check_and_format_shape` of `gtiler/common/shape_parser.py` (the
source's local variables `n_coords` and the reassigned `shp` are inlined). -/
def check_and_format_shape (env : GeomEnv) (shp : Shape) (simplify : Bool)
    (max_coords : Nat) (exterior_cw : Bool) : Except ShapeErr Shape :=
  if max_coords > 500 then .error .valueErrorMaxCoords
  else
    (if get_n_coords shp > max_coords then
      if !simplify then .error (.detailError (get_n_coords shp))
      else
        if get_n_coords [get_covering_region_for_shape env shp] > max_coords then
          .error (.valueErrorOverBudget
            (get_n_coords [get_covering_region_for_shape env shp]))
        else .ok [get_covering_region_for_shape env shp]
    else (.ok shp : Except ShapeErr Shape)).map
      (fun s => orient_shape env (close_holes s) exterior_cw)

/-! ## `gtiler/common/granule_metadata.py` -/

/-- Length-prefixed encoding of one item: `f"{len(item)}:{item}"`. -/
def encItem (s : List Char) : List Char := natDigits s.length ++ ':' :: s

/-- Python `",".join(parts)`. -/
def joinComma : List (List Char) → List Char
  | [] => []
  | [s] => s
  | s :: rest => s ++ ',' :: joinComma rest

/-- Embeds `hash_string_list` of `gtiler/common/granule_metadata.py`: the
comma-joined, length-prefixed encoding of the list, in the given order.  The
source returns the MD5 hex digest of this string; MD5 is an external, fixed,
deterministic function whose practical injectivity the design relies on (the
spec's "collision property"), so fingerprint equality is modelled by equality
of the encoded string the digest is applied to. -/
def hash_string_list (string_list : List String) : List Char :=
  joinComma (string_list.map (fun s => encItem s.data))

/-- One raw catalog record, as produced by `cmr_query.query`. -/
structure CmrHit where
  granule_name : String
  granule_size : Rat
deriving DecidableEq, Repr

/-- One row of the concatenated metadata frame in `get_granule_metadata`. -/
structure MdRow where
  granule_key : String
  product : String
  granule_name : String
  granule_size : Rat
deriving DecidableEq, Repr

/-- The concatenated per-product query results, each row tagged with its
granule key and its product, as built by the product loop of
`get_granule_metadata`.  The key derivation
(`granule_name.parse_granule_filename`, a module not present under `src/`) is
the parameter `keyOf`. -/
def taggedRows (keyOf : String → String) (products : List String)
    (queryFn : String → List CmrHit) : List MdRow :=
  products.flatMap (fun p => (queryFn p).map
    (fun h => ⟨keyOf h.granule_name, p, h.granule_name, h.granule_size⟩))

/-- Number of distinct products carried by a key:
`md.groupby("granule_key")["product"].nunique()` at that key. -/
def nprodOf (md : List MdRow) (k : String) : Nat :=
  ((md.filter (fun r => r.granule_key == k)).map (fun r => r.product)).dedup.length

/-- The distinct granule keys of a frame, in first-appearance order. -/
def granuleKeys (md : List MdRow) : List String :=
  (md.map (fun r => r.granule_key)).dedup

/-- Keys rejected by the completeness filter:
`omit = nprod[nprod != len(products)].index`. -/
def omitKeys (products : List String) (md : List MdRow) : List String :=
  (granuleKeys md).filter (fun k => nprodOf md k != products.length)

/-- One grouped observation unit of the catalog output. -/
structure GranuleUnit where
  granule_key : String
  granule_size : Rat
  granule_names : List String
  granule_hash : List Char
deriving DecidableEq, Repr

/-- Embeds `get_granule_metadata` of `gtiler/common/granule_metadata.py`:
tag and concatenate the per-product hits, drop keys without a full product
set, then aggregate one unit per retained key (summed size, name list in row
order, fingerprint of that list).  The four hard-wired per-product URL
columns and the geometry column (aggregated with "first") carry no
information for the claims and are omitted from the unit record.  The second
component is the number of omitted incomplete units, reported by the `print`
call. -/
def get_granule_metadata (keyOf : String → String) (products : List String)
    (queryFn : String → List CmrHit) : List GranuleUnit × Nat :=
  let md := taggedRows keyOf products queryFn
  let omitted := omitKeys products md
  let kept := md.filter (fun r => !omitted.contains r.granule_key)
  let keys := granuleKeys kept
  (keys.map (fun k =>
    let rows := kept.filter (fun r => r.granule_key == k)
    { granule_key := k
      granule_size := (rows.map (fun r => r.granule_size)).sum
      granule_names := rows.map (fun r => r.granule_name)
      granule_hash := hash_string_list (rows.map (fun r => r.granule_name)) }),
   omitted.length)

/-! ## `gtiler/database/query_lib/crossovers.py` -/

/-- H3 resolution used by `find_repeat_footprints`. -/
def H3_RESOLUTION_LEVEL : Nat := 11

/-- K-ring radius used by `find_repeat_footprints`. -/
def K_RING : Nat := 2

/-- One row of the GEDI point table read from the partitioned store. -/
structure FootShot where
  shot_number : Nat
  lat : Rat
  lon : Rat
  tile_id : String
deriving DecidableEq, Repr

/-- External collaborators of `find_repeat_footprints` for one query:
`contains` is `ST_Contains(geom, row.geometry)`; `coveringIds` the tile ids
produced by `ducky.spatial_filter_clause(geom)`; `extraFilter` the optional
`filters` conjunct (`fun _ => true` when `filters` is `None`); `cellOf` is
`h3_latlng_to_cell(lat, lon, 11)`; `gridDisk` is `h3_grid_disk(cell, 2)`;
`distSpheroid lat1 lon1 lat2 lon2` is
`ST_Distance_Spheroid(ST_Point(lat1, lon1), ST_Point(lat2, lon2))`; `area`
is `region.area.sum()`; `maxDistanceM` is the module constant
`MAX_DISTANCE_M = sqrt(67)/4 * 28.66 - 5` (irrational, hence kept as an
abstract parameter). -/
structure CrossoverEnv where
  contains : FootShot → Bool
  coveringIds : List String
  extraFilter : FootShot → Bool
  cellOf : Rat → Rat → Int
  gridDisk : Int → List Int
  distSpheroid : Rat → Rat → Rat → Rat → Rat
  area : Rat
  maxDistanceM : Rat

/-- H3 cell of a row: `h3_latlng_to_cell(lat_lowestmode, lon_lowestmode, 11)`. -/
def shotCell (env : CrossoverEnv) (s : FootShot) : Int := env.cellOf s.lat s.lon

/-- The WHERE clause of the `pts` table:
`ST_Contains(...) AND spatial_filter_clause AND filters`. -/
def passesFilter (env : CrossoverEnv) (s : FootShot) : Bool :=
  env.contains s && env.coveringIds.contains s.tile_id && env.extraFilter s

/-- The `pts` temp table: the rows of the source table passing the filter. -/
def ptsTable (env : CrossoverEnv) (table : List FootShot) : List FootShot :=
  table.filter (passesFilter env)

/-- The `pts_expanded` temp table: every point paired with each candidate
cell of its k-ring (`UNNEST(h3_grid_disk(h3_cell, 2))`). -/
def ptsExpanded (env : CrossoverEnv) (table : List FootShot) :
    List (FootShot × Int) :=
  (ptsTable env table).flatMap
    (fun t1 => (env.gridDisk (shotCell env t1)).map (fun c => (t1, c)))

/-- The `joined` CTE: `pts_expanded t1 JOIN pts t2 ON t1.shot_number <
t2.shot_number AND t2.h3_cell = t1.cand_cell`. -/
def joinedPairs (env : CrossoverEnv) (table : List FootShot) :
    List (FootShot × FootShot) :=
  (ptsExpanded env table).flatMap (fun tc =>
    ((ptsTable env table).filter
      (fun t2 => tc.1.shot_number < t2.shot_number && shotCell env t2 == tc.2)).map
      (fun t2 => (tc.1, t2)))

/-- The final selection: candidate pairs whose spheroidal distance is at most
the threshold. -/
def pairRows (env : CrossoverEnv) (table : List FootShot) (threshold : Rat) :
    List (FootShot × FootShot) :=
  (joinedPairs env table).filter
    (fun r => env.distSpheroid r.1.lat r.1.lon r.2.lat r.2.lon ≤ threshold)

/-- Embeds `find_repeat_footprints` of
`gtiler/database/query_lib/crossovers.py`: area cap check, threshold
validation against `MAX_DISTANCE_M`, then the H3 candidate pipeline.  The
optional `columns` argument only adds payload columns to each emitted row and
is omitted. -/
def find_repeat_footprints (env : CrossoverEnv) (table : List FootShot)
    (threshold : Rat) : Except String (List (FootShot × FootShot)) :=
  if env.area > 9 then .error ("region too large")
  else if ¬ threshold < env.maxDistanceM then .error ("distance threshold too large")
  else .ok (pairRows env table threshold)

/-! ## `scripts/check_tiles.py` -/

/-- One row of the persisted tile-granule metadata store (the columns the
reconciliation logic reads). -/
structure TGRow where
  tile_id : String
  granule_key : String
  granule_hash : String
deriving DecidableEq, Repr

/-- Embeds `ducky.metadata_spec(bucket, prefix)`:
`s3://{bucket}/{prefix}/metadata/*/*.parquet`. -/
def metadata_spec (bucket pfx : String) : String :=
  "s3://" ++ bucket ++ "/" ++ pfx ++ "/metadata/" ++ "*/*.parquet"

/-- Literal text of the path inside the duplicate-validation query of
`scripts/check_tiles.py`.  That query string is a plain string, not an
f-string, so the placeholder is not interpolated and these literal characters
are what `read_parquet` receives. -/
def duplicatesQueryPath : String := "\x7bmd_spec\x7d"

/-- Failure modes of `check_tiles.main` (each a raised exception in the
source; `ioError` is the DuckDB error for a `read_parquet` pattern matching
no file). -/
inductive CheckTilesErr where
  | ioError (path : String)
  | duplicateRows (n : Nat)
  | missingRegionTiles
  | mismatched (tile_ids : List String)
deriving DecidableEq, Repr

/-- Resolution of a `read_parquet` path pattern against the object store,
modelled as a lookup table from pattern to row set. -/
def readParquet (store : List (String × List TGRow)) (path : String) :
    Except CheckTilesErr (List TGRow) :=
  match store.lookup path with
  | some t => .ok t
  | none => .error (.ioError path)

/-- Number of duplicated `(tile_id, granule_key)` groups, as counted by the
duplicate-validation query (`GROUP BY tile_id, granule_key HAVING COUNT(*) > 1`). -/
def duplicateGroupCount (rows : List TGRow) : Nat :=
  (((rows.map (fun r => (r.tile_id, r.granule_key))).dedup).filter
    (fun k => (rows.filter (fun r => (r.tile_id, r.granule_key) == k)).length > 1)).length

/-- The `mismatched` relation: rows present in both snapshots under the same
`(tile_id, granule_key)` whose fingerprints differ, carrying both hashes. -/
def mismatchedPairs (cmr existing : List TGRow) :
    List (String × String × String × String) :=
  cmr.flatMap (fun c =>
    (existing.filter (fun e =>
      e.tile_id == c.tile_id && e.granule_key == c.granule_key &&
        e.granule_hash != c.granule_hash)).map
      (fun e => (e.tile_id, e.granule_key, e.granule_hash, c.granule_hash)))

/-- The `missing_granules` tiles: distinct `tile_id`s of fresh rows whose
`(tile_id, granule_key)` is absent from the stored metadata. -/
def missingGranuleTiles (cmr existing : List TGRow) : List String :=
  ((cmr.filter (fun c => !(existing.any (fun e =>
      e.tile_id == c.tile_id && e.granule_key == c.granule_key)))).map
    (fun c => c.tile_id)).dedup

/-- Embeds the reconciliation control flow of `main` in
`scripts/check_tiles.py`, from the point where the fresh CMR tile-granule
table is available: create the `existing_md` view, run the duplicate
validation (whose query names the literal uninterpolated path), check region
coverage, check fingerprint mismatches, and only then compute the tiles whose
data is moved aside for reprocessing.  The returned list is those moves - the
only writes to the persisted store in this script; every error path returns
before it. -/
def check_tiles_main (store : List (String × List TGRow)) (bucket pfx : String)
    (cmr_md : List TGRow) (coveringIds : List String) :
    Except CheckTilesErr (List String) :=
  match readParquet store (metadata_spec bucket pfx) with
  | .error e => .error e
  | .ok existing =>
    match readParquet store duplicatesQueryPath with
    | .error e => .error e
    | .ok dupTable =>
      let n := duplicateGroupCount dupTable
      if n > 0 then .error (.duplicateRows n)
      else if ¬ (coveringIds.all (fun t => existing.any (fun e => e.tile_id == t))) then
        .error .missingRegionTiles
      else
        let mis := mismatchedPairs cmr_md existing
        if mis.length > 0 then .error (.mismatched ((mis.map (fun m => m.1)).dedup))
        else .ok (missingGranuleTiles cmr_md existing)

/-! ## `gtiler/dps_tile_builder.py` -/

/-- Embeds the retry structure of `load_granule_product` in
`gtiler/dps_tile_builder.py`.  `succeeds k` says whether the k-th attempt
(0-based) to open and read the remote granule succeeds.  On failure the
function refreshes credentials and calls itself again; `fuel` is the
remaining Python recursion headroom, so fuel exhaustion is the
`RecursionError` that finally propagates.  Returns whether the call
eventually succeeds together with the total number of attempts made. -/
def load_granule_product_attempts (succeeds : Nat → Bool) :
    Nat → Nat → Bool × Nat
  | fuel, k =>
    if succeeds k then (true, k + 1)
    else
      match fuel with
      | 0 => (false, k + 1)
      | fuel + 1 => load_granule_product_attempts succeeds fuel (k + 1)

/-! ## `update_tiles.py` -/

/-- Row of a metadata snapshot in the `update_tiles.py` merge, modelled as an
association list from column name to string value, so that the SQL binder's
behaviour on column names is expressible. -/
abbrev UpdRow := List (String × String)

/-- The `(granule_id, tile_id)` partition key of the merge query. -/
def updRowKey (r : UpdRow) : Option String × Option String :=
  (r.lookup "granule_id", r.lookup "tile_id")

/-- The `cmr_access_time` value of a row (ISO timestamps compare
lexicographically). -/
def updRowTime (r : UpdRow) : String := (r.lookup "cmr_access_time").getD ""

/-- Columns of the metadata snapshots actually produced by `tile_runner.py`
(the sjoin of the covering tiles with the grouped CMR metadata, plus the
access timestamp). -/
def metadataColumns : List String :=
  ["tile_id", "geometry", "granule_key", "granule_size", "granule_names",
   "level2A_url", "level2B_url", "level4A_url", "level4C_url",
   "granule_geometry", "granule_hash", "cmr_access_time"]

/-- First row attaining the maximal `cmr_access_time` of a group (the `rn = 1`
row of `ROW_NUMBER() ... ORDER BY cmr_access_time DESC`; ties broken by
position). -/
def maxByTime (rows : List UpdRow) : Option UpdRow :=
  rows.foldl (fun acc x =>
    match acc with
    | none => some x
    | some b => if updRowTime b < updRowTime x then some x else some b) none

/-- Embeds the metadata merge of `main` in `update_tiles.py` (steps 2-3 of the
SQL: `UNION ALL` both snapshots, rank rows within each `(granule_id, tile_id)`
partition by `cmr_access_time` descending, keep rank 1).  The binder first
resolves the referenced column names against the combined schema `cols`; a
name that resolves to no column is a DuckDB binder error, raised before any
row is produced or written. -/
def update_tiles_merge (cols : List String) (existing update_md : List UpdRow) :
    Except String (List UpdRow) :=
  if "granule_id" ∈ cols ∧ "tile_id" ∈ cols ∧ "cmr_access_time" ∈ cols then
    .ok (((existing ++ update_md).map updRowKey).dedup.filterMap
      (fun k => maxByTime ((existing ++ update_md).filter (fun r => updRowKey r == k))))
  else
    .error ("Binder Error: column not found: " ++
      ((["granule_id", "tile_id", "cmr_access_time"].filter
        (fun c => !cols.contains c)).headD ""))

/-! ## Concrete fixtures used by counterexamples and witnesses -/

/-- Example granule-key extractor: every filename belongs to unit "g". -/
def exKeyOf : String → String := fun _ => "g"

/-- Example required product list. -/
def exProducts : List String := ["A", "B"]

/-- Example catalog responses: product A returns two files of the same unit,
product B returns one. -/
def exQueryFn : String → List CmrHit :=
  fun p => if p = "A" then [⟨"f1", 1⟩, ⟨"f2", 1⟩] else [⟨"f3", 1⟩]

/-- Example geometry environment: rings denote the empty region except the
empty ring, which denotes everything; `union_all` returns that full polygon;
orientation is the identity.  Satisfies all the geometric hypotheses of the
shape-parser theorem. -/
def exGeomEnv : GeomEnv where
  ringSet := fun l => if l = [] then Set.univ else (∅ : Set Pt)
  sjoinPred := fun _ _ => true
  unionAll := fun _ => [⟨[], []⟩]
  orientPolygons := fun _ row => row

/-- Example shape: one square polygon row (closing point repeated, as
shapely stores it). -/
def exShape : Shape := [[⟨[(0, 0), (0, 1), (1, 1), (0, 0)], []⟩]]

/-- Example crossover environment: everything lives in H3 cell 0 whose
1-ring is just itself, all points are inside the region, distances are 0. -/
def exCrossEnv : CrossoverEnv where
  contains := fun _ => true
  coveringIds := ["T"]
  extraFilter := fun _ => true
  cellOf := fun _ _ => 0
  gridDisk := fun c => [c]
  distSpheroid := fun _ _ _ _ => 0
  area := 1
  maxDistanceM := 1

/-- Example crossover environment for the region-filter claim: only the
point with shot number 1 is inside the region. -/
def exCrossEnvPartial : CrossoverEnv where
  contains := fun s => s.shot_number == 1
  coveringIds := ["T"]
  extraFilter := fun _ => true
  cellOf := fun _ _ => 0
  gridDisk := fun c => [c]
  distSpheroid := fun _ _ _ _ => 0
  area := 1
  maxDistanceM := 1

/-- Example point table: two shots at the same location in tile T. -/
def exShots : List FootShot := [⟨1, 0, 0, "T"⟩, ⟨2, 0, 0, "T"⟩]

/-! ## Lemmas: decimal printing -/

theorem chVal_digCh {d : Nat} (h : d < 10) : chVal (digCh d) = d := by
  interval_cases d <;> decide

theorem isDigit_digCh {d : Nat} (h : d < 10) : (digCh d).isDigit = true := by
  interval_cases d <;> decide

theorem natDigitsGo_congr (f₁ : Nat) : ∀ f₂ n, n ≤ f₁ → n ≤ f₂ →
    natDigitsGo f₁ n = natDigitsGo f₂ n := by
  induction f₁ with
  | zero =>
    intro f₂ n h1 _
    have hn : n = 0 := by omega
    subst hn
    cases f₂ <;> simp [natDigitsGo]
  | succ f ih =>
    intro f₂ n h1 h2
    cases f₂ with
    | zero =>
      have hn : n = 0 := by omega
      subst hn
      simp [natDigitsGo]
    | succ f₂' =>
      by_cases hn : n < 10
      · simp [natDigitsGo, hn]
      · have hdiv : n / 10 < n := Nat.div_lt_self (by omega) (by omega)
        simp only [natDigitsGo, if_neg hn]
        rw [ih f₂' (n / 10) (by omega) (by omega)]

theorem natDigits_eq (n : Nat) :
    natDigits n = if n < 10 then [digCh n]
      else natDigits (n / 10) ++ [digCh (n % 10)] := by
  by_cases hn : n < 10
  · cases n with
    | zero => simp [natDigits, natDigitsGo, hn]
    | succ m => simp [natDigits, natDigitsGo, hn]
  · have hpos : 0 < n := by omega
    obtain ⟨m, rfl⟩ : ∃ m, n = m + 1 := ⟨n - 1, by omega⟩
    have hdiv : (m + 1) / 10 < m + 1 := Nat.div_lt_self (by omega) (by omega)
    simp only [natDigits, natDigitsGo, if_neg hn]
    rw [natDigitsGo_congr m ((m + 1) / 10) ((m + 1) / 10) (by omega) (by omega)]

theorem natDigits_lt10 {n : Nat} (h : n < 10) : natDigits n = [digCh n] := by
  rw [natDigits_eq, if_pos h]

theorem natDigits_two {n : Nat} (h1 : 10 ≤ n) (h2 : n < 100) :
    natDigits n = [digCh (n / 10), digCh (n % 10)] := by
  rw [natDigits_eq, if_neg (by omega), natDigits_lt10 (by omega)]
  rfl

theorem natDigits_three {n : Nat} (h1 : 100 ≤ n) (h2 : n < 1000) :
    natDigits n = [digCh (n / 100), digCh (n / 10 % 10), digCh (n % 10)] := by
  rw [natDigits_eq, if_neg (by omega),
    natDigits_two (by omega) (by omega)]
  have : n / 10 / 10 = n / 100 := by omega
  simp [this]

theorem zeroPad2_eq {n : Nat} (h : n < 100) :
    zeroPad 2 (natDigits n) = [digCh (n / 10), digCh (n % 10)] := by
  by_cases h10 : n < 10
  · rw [natDigits_lt10 h10]
    have h1 : n / 10 = 0 := by omega
    have h2 : n % 10 = n := by omega
    simp [zeroPad, h1, h2]
    rfl
  · rw [natDigits_two (by omega) h]
    simp [zeroPad]

theorem zeroPad3_eq {n : Nat} (h : n < 1000) :
    zeroPad 3 (natDigits n) = [digCh (n / 100), digCh (n / 10 % 10), digCh (n % 10)] := by
  by_cases h10 : n < 10
  · rw [natDigits_lt10 h10]
    have h1 : n / 100 = 0 := by omega
    have h2 : n / 10 % 10 = 0 := by omega
    have h3 : n % 10 = n := by omega
    simp [zeroPad, h1, h2, h3]
    rfl
  · by_cases h100 : n < 100
    · rw [natDigits_two (by omega) h100]
      have h1 : n / 100 = 0 := by omega
      have h2 : n / 10 % 10 = n / 10 := by omega
      simp [zeroPad, h1, h2]
      rfl
    · rw [natDigits_three (by omega) h]
      simp [zeroPad]

/-! ## Lemmas: tile identifier encoding and decoding -/

theorem absTrunc_intCast (m : Int) : absTrunc ((m : Int) : Rat) = m.natAbs := by
  simp [absTrunc]

theorem tileBoundsCh_digits {ns ew : Char} (a b c d e : Nat)
    (hns : ns = 'N' ∨ ns = 'S') (hew : ew = 'E' ∨ ew = 'W')
    (ha : a < 10) (hb : b < 10) (hc : c < 10) (hd : d < 10) (he : e < 10) :
    tileBoundsCh [ns, digCh a, digCh b, '_', ew, digCh c, digCh d, digCh e] =
      some ⟨(if ew = 'W' then -(100 * c + 10 * d + e : Int) else (100 * c + 10 * d + e : Int)),
            (if ns = 'S' then -(10 * a + b : Int) else (10 * a + b : Int)) - 1,
            (if ew = 'W' then -(100 * c + 10 * d + e : Int) else (100 * c + 10 * d + e : Int)) + 1,
            (if ns = 'S' then -(10 * a + b : Int) else (10 * a + b : Int))⟩ := by
  rcases hns with hns | hns <;> rcases hew with hew | hew <;> subst hns <;> subst hew <;>
    simp [tileBoundsCh, isDigit_digCh, ha, hb, hc, hd, he,
      chVal_digCh, Nat.cast_add, Nat.cast_mul]

theorem _to_text_data (lon lat : Rat) :
    (_to_text lon lat).data =
      (if lat < 0 then 'S' else 'N') :: zeroPad 2 (natDigits (absTrunc lat)) ++
        '_' :: (if lon < 0 then 'W' else 'E') :: zeroPad 3 (natDigits (absTrunc lon)) := by
  unfold _to_text _to_nesw
  by_cases hlt : lat < 0 <;> by_cases hlo : lon < 0 <;> simp [hlt, hlo]

theorem tile_bounds_to_text (lon lat : Int)
    (hlon1 : -180 ≤ lon) (hlon2 : lon ≤ 179) (hlat1 : -89 ≤ lat) (hlat2 : lat ≤ 90) :
    tile_bounds (_to_text ((lon : Int) : Rat) ((lat : Int) : Rat)) =
      some ⟨lon, lat - 1, lon + 1, lat⟩ := by
  have hlatAbs : lat.natAbs < 100 := by omega
  have hlonAbs : lon.natAbs < 1000 := by omega
  have hcl : (((lat : Int) : Rat) < 0) ↔ (lat < 0) := by
    exact_mod_cast Int.cast_lt_zero
  have hco : (((lon : Int) : Rat) < 0) ↔ (lon < 0) := by
    exact_mod_cast Int.cast_lt_zero
  have hdata : (_to_text ((lon : Int) : Rat) ((lat : Int) : Rat)).data =
      (if lat < 0 then 'S' else 'N') ::
        (digCh (lat.natAbs / 10) :: digCh (lat.natAbs % 10) :: '_' ::
          (if lon < 0 then 'W' else 'E') ::
            [digCh (lon.natAbs / 100), digCh (lon.natAbs / 10 % 10), digCh (lon.natAbs % 10)]) := by
    rw [_to_text_data]
    rw [absTrunc_intCast, absTrunc_intCast, zeroPad2_eq hlatAbs, zeroPad3_eq hlonAbs]
    by_cases hlt : lat < 0 <;> by_cases hlo : lon < 0 <;>
      simp [hlt, hlo, hcl, hco]
  rw [tile_bounds, hdata,
    tileBoundsCh_digits (lat.natAbs / 10) (lat.natAbs % 10)
      (lon.natAbs / 100) (lon.natAbs / 10 % 10) (lon.natAbs % 10)
      (by by_cases h : lat < 0 <;> simp [h])
      (by by_cases h : lon < 0 <;> simp [h])
      (by omega) (by omega) (by omega) (by omega) (by omega)]
  have hS : (if (if lat < 0 then 'S' else 'N') = 'S'
        then -(10 * ((lat.natAbs / 10 : Nat) : Int) + ((lat.natAbs % 10 : Nat) : Int))
        else (10 * ((lat.natAbs / 10 : Nat) : Int) + ((lat.natAbs % 10 : Nat) : Int))) = lat := by
    by_cases hlt : lat < 0
    · rw [if_pos hlt, if_pos (show ('S' : Char) = 'S' from rfl)]
      omega
    · rw [if_neg hlt, if_neg (show ¬ ('N' : Char) = 'S' by decide)]
      omega
  have hW : (if (if lon < 0 then 'W' else 'E') = 'W'
        then -(100 * ((lon.natAbs / 100 : Nat) : Int) + 10 * ((lon.natAbs / 10 % 10 : Nat) : Int) +
          ((lon.natAbs % 10 : Nat) : Int))
        else (100 * ((lon.natAbs / 100 : Nat) : Int) + 10 * ((lon.natAbs / 10 % 10 : Nat) : Int) +
          ((lon.natAbs % 10 : Nat) : Int))) = lon := by
    by_cases hlo : lon < 0
    · rw [if_pos hlo, if_pos (show ('W' : Char) = 'W' from rfl)]
      omega
    · rw [if_neg hlo, if_neg (show ¬ ('E' : Char) = 'W' by decide)]
      omega
  rw [hS, hW]

theorem mem_tileCorners {ij : Int × Int} (h : ij ∈ tileCorners) :
    -180 ≤ ij.1 ∧ ij.1 ≤ 178 ∧ -88 ≤ ij.2 ∧ ij.2 ≤ 90 := by
  simp only [tileCorners, List.mem_flatMap, List.mem_map, List.mem_range] at h
  obtain ⟨i, ⟨k, hk, rfl⟩, j, ⟨k2, hk2, rfl⟩, rfl⟩ := h
  refine ⟨?_, ?_, ?_, ?_⟩ <;> simp only [Prod.fst, Prod.snd] <;> omega

theorem worldTiles_bounds {t : String × TileBounds} (h : t ∈ worldTiles) :
    t.2.maxx ≤ 179 ∧ -89 ≤ t.2.miny := by
  simp only [worldTiles, List.mem_filterMap] at h
  obtain ⟨ij, hmem, hsome⟩ := h
  have hb := mem_tileCorners hmem
  rw [tile_bounds_to_text ij.1 ij.2 (by omega) (by omega) (by omega) (by omega)] at hsome
  simp only [Option.map_some'] at hsome
  cases hsome
  constructor
  · show ij.1 + 1 ≤ 179
    omega
  · show -89 ≤ ij.2 - 1
    omega

/-- Claim C3 (code_bug evidence): the global tile enumeration of
`get_covering_tiles_for_region` does not cover the globe.  The corner loops
stop at longitude corner 178 and latitude corner -88, so no enumerated tile
box contains the valid geographic point (179.5, -89.5): the covering set of a
region consisting of that point is empty, although the point lies within
longitudes [-180, 180] and latitudes [-90, 90]. -/
theorem covering_tiles_globe_gap :
    ((-180 : Rat) ≤ mkRat 359 2 ∧ mkRat 359 2 ≤ 180 ∧
      (-90 : Rat) ≤ mkRat (-179) 2 ∧ mkRat (-179) 2 ≤ 90) ∧
    get_covering_tiles_for_region
      [fun b => boxContains b (mkRat 359 2) (mkRat (-179) 2)] = [] := by
  refine ⟨by decide, ?_⟩
  rw [get_covering_tiles_for_region, List.filter_eq_nil_iff]
  intro tb htb
  have hb := worldTiles_bounds htb
  simp only [List.any_cons, List.any_nil, Bool.or_false, boxContains,
    Bool.and_eq_true, decide_eq_true_eq]
  rintro ⟨⟨⟨h1, h2⟩, h3⟩, h4⟩
  have hc : ((tb.2.maxx : Int) : Rat) ≤ ((179 : Int) : Rat) := by
    exact_mod_cast hb.1
  have h179 : ((179 : Int) : Rat) < mkRat 359 2 := by decide
  exact absurd (le_trans h2 hc) (not_le.mpr h179)

theorem strictlyInside_floor {lon lat : Int} {x y : Rat}
    (h : strictlyInside ⟨lon, lat - 1, lon + 1, lat⟩ x y) :
    ⌊x⌋ = lon ∧ ⌊y⌋ = lat - 1 := by
  obtain ⟨h1, h2, h3, h4⟩ := h
  constructor
  · have ha : lon ≤ ⌊x⌋ := Int.le_floor.mpr (le_of_lt h1)
    have hb : ⌊x⌋ < lon + 1 := Int.floor_lt.mpr (by push_cast at h2 ⊢; linarith)
    omega
  · have ha : lat - 1 ≤ ⌊y⌋ := Int.le_floor.mpr (by push_cast at h3 ⊢; linarith)
    have hb : ⌊y⌋ < lat := Int.floor_lt.mpr (by push_cast at h4 ⊢; linarith)
    omega

/-- Claim C2 (amended): for every canonical corner pair (integer lon in
[-180, 179], lat in [-89, 90]), decoding the encoded identifier
`_to_text(lon, lat)` with `Tile.__init__` yields exactly the box
(lon, lat - 1, lon + 1, lat) - the decoding is an exact inverse of the
corner encoding - and a point strictly inside that box is strictly inside
the box of no other corner pair, so the tile of a strictly interior point
is unique.  (The claim's further assertion, that applying the encoding to
the point itself returns this tile, is refuted by
`tile_id_point_encoding_counterexample`.) -/
theorem tile_id_roundtrip (lon lat : Int)
    (hlon1 : -180 ≤ lon) (hlon2 : lon ≤ 179) (hlat1 : -89 ≤ lat) (hlat2 : lat ≤ 90) :
    tile_bounds (_to_text ((lon : Int) : Rat) ((lat : Int) : Rat)) =
      some ⟨lon, lat - 1, lon + 1, lat⟩ ∧
    ∀ (lon' lat' : Int) (x y : Rat),
      strictlyInside ⟨lon, lat - 1, lon + 1, lat⟩ x y →
      strictlyInside ⟨lon', lat' - 1, lon' + 1, lat'⟩ x y →
      lon' = lon ∧ lat' = lat := by
  refine ⟨tile_bounds_to_text lon lat hlon1 hlon2 hlat1 hlat2, ?_⟩
  intro lon' lat' x y h h'
  have e := strictlyInside_floor h
  have e' := strictlyInside_floor h'
  omega

/-- Claim C2 witness: the canonical corner (-60, 10) instantiates
`tile_id_roundtrip`; its identifier decodes to the box (-60, 9, -59, 10),
and the point (-59.5, 9.5), strictly inside that box, is inside no other
tile box. -/
theorem tile_id_roundtrip_witness :
    tile_bounds (_to_text (((-60 : Int) : Rat)) (((10 : Int) : Rat))) =
      some ⟨-60, 10 - 1, -60 + 1, 10⟩ ∧ ((-60 : Int) = -60 ∧ (10 : Int) = 10) := by
  have h := tile_id_roundtrip (-60) 10 (by decide) (by decide) (by decide) (by decide)
  exact ⟨h.1, h.2 (-60) 10 (mkRat (-119) 2) (mkRat 19 2) (by decide) (by decide)⟩

/-- Claim C2 counterexample: tile N10_W060 has bounds (-60, 9, -59, 10) and
the point (lon = -59.5, lat = 9.5) is strictly inside them, but the encoding
`_to_text` applied to that point truncates the coordinates toward zero and
produces N09_W059, not N10_W060 - so encoding a point strictly inside
`bounds_for(t)` does not return `t`. -/
theorem tile_id_point_encoding_counterexample :
    tile_bounds "N10_W060" = some ⟨-60, 9, -59, 10⟩ ∧
    strictlyInside ⟨-60, 9, -59, 10⟩ (mkRat (-119) 2) (mkRat 19 2) ∧
    _to_text (mkRat (-119) 2) (mkRat 19 2) = "N09_W059" ∧
    ¬ _to_text (mkRat (-119) 2) (mkRat 19 2) = "N10_W060" := by
  exact ⟨by decide, by decide, by decide, by decide⟩

/-! ## Lemmas: the length-prefixed fingerprint encoding -/

theorem digCh_inj {a b : Nat} (ha : a < 10) (hb : b < 10) (h : digCh a = digCh b) :
    a = b := by
  have h1 := chVal_digCh ha
  have h2 := chVal_digCh hb
  rw [← h1, ← h2, h]

theorem natDigits_ne_nil (n : Nat) : natDigits n ≠ [] := by
  rw [natDigits_eq]
  split <;> simp

theorem isDigit_natDigits (n : Nat) : ∀ c ∈ natDigits n, c.isDigit = true := by
  induction n using Nat.strong_induction_on with
  | _ n ih =>
    rw [natDigits_eq]
    by_cases h : n < 10
    · rw [if_pos h]
      intro c hc
      rw [List.mem_singleton] at hc
      subst hc
      exact isDigit_digCh h
    · rw [if_neg h]
      intro c hc
      rcases List.mem_append.mp hc with h1 | h2
      · exact ih (n / 10) (Nat.div_lt_self (by omega) (by omega)) c h1
      · rw [List.mem_singleton] at h2
        subst h2
        exact isDigit_digCh (by omega)

theorem natDigits_inj : ∀ (m n : Nat), natDigits m = natDigits n → m = n := by
  intro m
  induction m using Nat.strong_induction_on with
  | _ m ih =>
    intro n h
    by_cases hm : m < 10 <;> by_cases hn : n < 10
    · rw [natDigits_lt10 hm, natDigits_lt10 hn] at h
      exact digCh_inj hm hn (by simpa using h)
    · exfalso
      rw [natDigits_lt10 hm, natDigits_eq n, if_neg hn] at h
      have hlen := congrArg List.length h
      have hpos : 0 < (natDigits (n / 10)).length :=
        List.length_pos.mpr (natDigits_ne_nil (n / 10))
      simp only [List.length_append, List.length_singleton] at hlen
      omega
    · exfalso
      rw [natDigits_lt10 hn, natDigits_eq m, if_neg hm] at h
      have hlen := congrArg List.length h
      have hpos : 0 < (natDigits (m / 10)).length :=
        List.length_pos.mpr (natDigits_ne_nil (m / 10))
      simp only [List.length_append, List.length_singleton] at hlen
      omega
    · rw [natDigits_eq m, if_neg hm, natDigits_eq n, if_neg hn] at h
      have hparts := List.append_inj' h (by simp)
      have hdiv := ih (m / 10) (Nat.div_lt_self (by omega) (by omega)) (n / 10) hparts.1
      have hmod : m % 10 = n % 10 := by
        have := hparts.2
        rw [List.cons.injEq] at this
        exact digCh_inj (by omega) (by omega) this.1
      omega

theorem digit_colon_split : ∀ (d₁ d₂ t₁ t₂ : List Char),
    (∀ c ∈ d₁, c.isDigit = true) → (∀ c ∈ d₂, c.isDigit = true) →
    d₁ ++ ':' :: t₁ = d₂ ++ ':' :: t₂ → d₁ = d₂ ∧ t₁ = t₂ := by
  intro d₁
  induction d₁ with
  | nil =>
    intro d₂ t₁ t₂ _ h2 heq
    cases d₂ with
    | nil => simpa using heq
    | cons c cs =>
      exfalso
      rw [List.nil_append, List.cons_append, List.cons.injEq] at heq
      have hc := h2 c (List.mem_cons_self c cs)
      rw [← heq.1] at hc
      exact absurd hc (by decide)
  | cons c cs ih =>
    intro d₂ t₁ t₂ h1 h2 heq
    cases d₂ with
    | nil =>
      exfalso
      rw [List.nil_append, List.cons_append, List.cons.injEq] at heq
      have hc := h1 c (List.mem_cons_self c cs)
      rw [heq.1] at hc
      exact absurd hc (by decide)
    | cons c' cs' =>
      rw [List.cons_append, List.cons_append, List.cons.injEq] at heq
      have := ih cs' t₁ t₂ (fun x hx => h1 x (List.mem_cons_of_mem c hx))
        (fun x hx => h2 x (List.mem_cons_of_mem c' hx)) heq.2
      exact ⟨by rw [heq.1, this.1], this.2⟩

theorem encItem_append_inj {s₁ s₂ r₁ r₂ : List Char}
    (h : encItem s₁ ++ r₁ = encItem s₂ ++ r₂) : s₁ = s₂ ∧ r₁ = r₂ := by
  unfold encItem at h
  rw [List.append_assoc, List.append_assoc, List.cons_append, List.cons_append] at h
  have hsplit := digit_colon_split _ _ _ _ (isDigit_natDigits s₁.length)
    (isDigit_natDigits s₂.length) h
  have hlen : s₁.length = s₂.length := natDigits_inj _ _ hsplit.1
  exact List.append_inj hsplit.2 hlen

theorem encItem_ne_nil (s : List Char) : encItem s ≠ [] := by
  unfold encItem
  intro h
  exact natDigits_ne_nil s.length (List.append_eq_nil.mp h).1

theorem joinComma_encItem_ne_nil (s : List Char) (rest : List (List Char)) :
    joinComma (encItem s :: rest) ≠ [] := by
  cases rest with
  | nil => exact encItem_ne_nil s
  | cons y ys =>
    show encItem s ++ ',' :: joinComma (y :: ys) ≠ []
    intro h
    have := (List.append_eq_nil.mp h).2
    exact absurd this (by simp)

theorem joinComma_encItem_inj : ∀ (l₁ l₂ : List (List Char)),
    joinComma (l₁.map encItem) = joinComma (l₂.map encItem) → l₁ = l₂ := by
  intro l₁
  induction l₁ with
  | nil =>
    intro l₂ h
    cases l₂ with
    | nil => rfl
    | cons b t₂ =>
      exact absurd h.symm (by simpa using joinComma_encItem_ne_nil b (t₂.map encItem))
  | cons a t₁ ih =>
    intro l₂ h
    cases l₂ with
    | nil =>
      exact absurd h (by simpa using joinComma_encItem_ne_nil a (t₁.map encItem))
    | cons b t₂ =>
      cases t₁ with
      | nil =>
        cases t₂ with
        | nil =>
          have h0 : encItem a = encItem b := by simpa [joinComma] using h
          have h1 : encItem a ++ ([] : List Char) = encItem b ++ ([] : List Char) := by
            rw [List.append_nil, List.append_nil]
            exact h0
          have h2 := @encItem_append_inj a b [] [] h1
          rw [h2.1]
        | cons y ys =>
          exfalso
          have h' : encItem a ++ [] = encItem b ++ ',' :: joinComma (encItem y :: ys.map encItem) := by
            simpa [joinComma] using h
          have := (encItem_append_inj h').2
          exact absurd this.symm (by simp)
      | cons x xs =>
        cases t₂ with
        | nil =>
          exfalso
          have h' : encItem b ++ [] = encItem a ++ ',' :: joinComma (encItem x :: xs.map encItem) := by
            simpa [joinComma] using h.symm
          have := (encItem_append_inj h').2
          exact absurd this.symm (by simp)
        | cons y ys =>
          have h' : encItem a ++ ',' :: joinComma (encItem x :: xs.map encItem) =
              encItem b ++ ',' :: joinComma (encItem y :: ys.map encItem) := by
            simpa [joinComma] using h
          have hsplit := encItem_append_inj h'
          have htail : joinComma ((x :: xs).map encItem) = joinComma ((y :: ys).map encItem) := by
            have := hsplit.2
            rw [List.cons.injEq] at this
            simpa [List.map_cons] using this.2
          have := ih (y :: ys) htail
          rw [hsplit.1, this]

/-- Claim C5 counterexample: the fingerprint encoding is order-sensitive, not
computed over a sorted list - presenting the same two filenames in the two
orders yields two different fingerprints. -/
theorem fingerprint_not_sorted_counterexample :
    ¬ hash_string_list ["a", "b"] = hash_string_list ["b", "a"] := by
  decide

/-- Claim C5 (amended): the content fingerprint is a deterministic hash over
the length-prefixed list of the unit's source filenames in their given
(unsorted) order, and the length-prefixed encoding is injective - distinct
filename lists always produce distinct encoded strings (this is the
"length-prefixing avoids ambiguity" guarantee), so in particular two distinct
orders of distinct filenames yield distinct fingerprints. -/
theorem fingerprint_encoding_injective (l₁ l₂ : List String)
    (h : hash_string_list l₁ = hash_string_list l₂) : l₁ = l₂ := by
  unfold hash_string_list at h
  have h' : joinComma ((l₁.map String.data).map encItem) =
      joinComma ((l₂.map String.data).map encItem) := by
    rw [List.map_map, List.map_map]
    exact h
  have hdata := joinComma_encItem_inj _ _ h'
  have hinj : Function.Injective String.data := by
    intro a b hab
    cases a
    cases b
    exact congrArg String.mk hab
  exact List.map_injective_iff.mpr hinj hdata

/-- Claim C5 witness: instantiating the injectivity theorem at the singleton
list ["GEDI02_A.h5"] with the trivial equality hypothesis. -/
theorem fingerprint_encoding_injective_witness :
    (["GEDI02_A.h5"] : List String) = ["GEDI02_A.h5"] :=
  fingerprint_encoding_injective ["GEDI02_A.h5"] ["GEDI02_A.h5"] rfl

/-! ## Lemmas: granule grouping and completeness -/

theorem mem_taggedRows {keyOf : String → String} {products : List String}
    {queryFn : String → List CmrHit} {r : MdRow} :
    r ∈ taggedRows keyOf products queryFn ↔
      ∃ p ∈ products, ∃ h ∈ queryFn p,
        MdRow.mk (keyOf h.granule_name) p h.granule_name h.granule_size = r := by
  simp [taggedRows]

theorem mem_granuleKeys {md : List MdRow} {k : String} :
    k ∈ granuleKeys md ↔ ∃ r ∈ md, r.granule_key = k := by
  simp [granuleKeys]

theorem nprodOf_eq_iff {keyOf : String → String} {products : List String}
    {queryFn : String → List CmrHit} (hnd : products.Nodup) (k : String) :
    (nprodOf (taggedRows keyOf products queryFn) k = products.length) ↔
      ∀ p ∈ products, ∃ h ∈ queryFn p, keyOf h.granule_name = k := by
  set md := taggedRows keyOf products queryFn with hmd
  set P := ((md.filter (fun r => r.granule_key == k)).map (fun r => r.product)) with hP
  have hmemP : ∀ p, p ∈ P.dedup ↔
      (p ∈ products ∧ ∃ h ∈ queryFn p, keyOf h.granule_name = k) := by
    intro p
    rw [List.mem_dedup, hP]
    simp only [List.mem_map, List.mem_filter, beq_iff_eq]
    constructor
    · rintro ⟨r, ⟨hrmem, hrkey⟩, rfl⟩
      rw [hmd, mem_taggedRows] at hrmem
      obtain ⟨p', hp', h, hh, rfl⟩ := hrmem
      exact ⟨hp', h, hh, hrkey⟩
    · rintro ⟨hp, h, hh, hkey⟩
      refine ⟨⟨keyOf h.granule_name, p, h.granule_name, h.granule_size⟩, ⟨?_, hkey⟩, rfl⟩
      rw [hmd, mem_taggedRows]
      exact ⟨p, hp, h, hh, rfl⟩
  have hndP : P.dedup.Nodup := List.nodup_dedup P
  have hsub : P.dedup.toFinset ⊆ products.toFinset := by
    intro p hp
    rw [List.mem_toFinset] at hp ⊢
    exact ((hmemP p).mp hp).1
  have hcardP : P.dedup.toFinset.card = P.dedup.length :=
    List.toFinset_card_of_nodup hndP
  have hcardProd : products.toFinset.card = products.length :=
    List.toFinset_card_of_nodup hnd
  constructor
  · intro hlen p hp
    have hle : products.toFinset.card ≤ P.dedup.toFinset.card := by
      rw [hcardP, hcardProd]
      rw [nprodOf, ← hP] at hlen
      omega
    have heq : P.dedup.toFinset = products.toFinset :=
      Finset.eq_of_subset_of_card_le hsub hle
    have : p ∈ P.dedup.toFinset := by
      rw [heq, List.mem_toFinset]
      exact hp
    rw [List.mem_toFinset] at this
    exact ((hmemP p).mp this).2
  · intro hall
    have hsub2 : products.toFinset ⊆ P.dedup.toFinset := by
      intro p hp
      rw [List.mem_toFinset] at hp ⊢
      exact (hmemP p).mpr ⟨hp, hall p hp⟩
    have heq : P.dedup.toFinset = products.toFinset :=
      Finset.Subset.antisymm hsub hsub2
    rw [nprodOf]
    rw [← hcardP, ← hcardProd, heq]

theorem mem_omitKeys {keyOf : String → String} {products : List String}
    {queryFn : String → List CmrHit} (hnd : products.Nodup) (k : String) :
    k ∈ omitKeys products (taggedRows keyOf products queryFn) ↔
      (k ∈ granuleKeys (taggedRows keyOf products queryFn) ∧
        ¬ ∀ p ∈ products, ∃ h ∈ queryFn p, keyOf h.granule_name = k) := by
  rw [omitKeys, List.mem_filter]
  simp only [bne_iff_ne, ne_eq]
  constructor
  · rintro ⟨hmem, hne⟩
    exact ⟨hmem, fun hall => hne ((nprodOf_eq_iff hnd k).mpr hall)⟩
  · rintro ⟨hmem, hne⟩
    exact ⟨hmem, fun heq => hne ((nprodOf_eq_iff hnd k).mp heq)⟩

theorem get_granule_metadata_keys (keyOf : String → String) (products : List String)
    (queryFn : String → List CmrHit) :
    (get_granule_metadata keyOf products queryFn).1.map GranuleUnit.granule_key =
      granuleKeys ((taggedRows keyOf products queryFn).filter
        (fun r => !(omitKeys products (taggedRows keyOf products queryFn)).contains
          r.granule_key)) := by
  simp [get_granule_metadata, List.map_map, Function.comp_def]

theorem get_granule_metadata_count (keyOf : String → String) (products : List String)
    (queryFn : String → List CmrHit) :
    (get_granule_metadata keyOf products queryFn).2 =
      (omitKeys products (taggedRows keyOf products queryFn)).length := rfl

/-- Claim C6 (amended): a unit key appears in the grouped catalog output if
and only if it occurs in the raw hits and has at least one hit for every one
of the required product types (the code counts distinct products per key and
keeps keys whose distinct-product count equals the number of required
products; a key with several files of the same product is still retained, so
"exactly one file per product type" is not enforced).  The reported excluded
count is the number of distinct raw keys that fail this completeness test. -/
theorem granule_unit_retained_iff (keyOf : String → String) (products : List String)
    (queryFn : String → List CmrHit) (hnd : products.Nodup) (k : String) :
    (k ∈ (get_granule_metadata keyOf products queryFn).1.map GranuleUnit.granule_key ↔
      ((∃ r ∈ taggedRows keyOf products queryFn, r.granule_key = k) ∧
        ∀ p ∈ products, ∃ h ∈ queryFn p, keyOf h.granule_name = k)) ∧
    (get_granule_metadata keyOf products queryFn).2 =
      ((granuleKeys (taggedRows keyOf products queryFn)).filter
        (fun k2 => !(products.all (fun p =>
          (queryFn p).any (fun h => keyOf h.granule_name == k2))))).length := by
  set md := taggedRows keyOf products queryFn with hmd
  constructor
  · rw [get_granule_metadata_keys, mem_granuleKeys]
    constructor
    · rintro ⟨r, hrkept, hrkey⟩
      rw [List.mem_filter] at hrkept
      obtain ⟨hrmd, hrnc⟩ := hrkept
      have hknot : k ∉ omitKeys products md := by
        intro hk
        simp only [Bool.not_eq_eq_eq_not, Bool.not_true, List.contains,
          List.elem_eq_mem, decide_eq_false_iff_not] at hrnc
        rw [hrkey] at hrnc
        exact hrnc hk
      have hkmem : k ∈ granuleKeys md := mem_granuleKeys.mpr ⟨r, hrmd, hrkey⟩
      refine ⟨mem_granuleKeys.mp hkmem, ?_⟩
      by_contra hne
      exact hknot ((mem_omitKeys hnd k).mpr ⟨hkmem, hne⟩)
    · rintro ⟨⟨r, hrmd, hrkey⟩, hall⟩
      have hknot : k ∉ omitKeys products md := by
        intro hk
        exact ((mem_omitKeys hnd k).mp hk).2 hall
      refine ⟨r, ?_, hrkey⟩
      rw [List.mem_filter]
      refine ⟨hrmd, ?_⟩
      simp only [Bool.not_eq_eq_eq_not, Bool.not_true, List.contains,
        List.elem_eq_mem, decide_eq_false_iff_not]
      rw [hrkey]
      exact hknot
  · rw [get_granule_metadata_count]
    congr 1
    rw [omitKeys]
    apply List.filter_congr
    intro k2 _
    have hiff : (nprodOf md k2 != products.length) = true ↔
        (!(products.all (fun p =>
          (queryFn p).any (fun h => keyOf h.granule_name == k2)))) = true := by
      rw [bne_iff_ne, ne_eq, Bool.not_eq_eq_eq_not, Bool.not_true,
        ← Bool.not_eq_true, hmd, nprodOf_eq_iff hnd k2]
      simp [List.all_eq_true, List.any_eq_true]
    cases h1 : (nprodOf md k2 != products.length)
    · cases h2 : (!(products.all (fun p =>
        (queryFn p).any (fun h => keyOf h.granule_name == k2))))
      · rfl
      · rw [h1, h2] at hiff
        exact absurd (hiff.mpr rfl) (by simp)
    · cases h2 : (!(products.all (fun p =>
        (queryFn p).any (fun h => keyOf h.granule_name == k2))))
      · rw [h1, h2] at hiff
        exact absurd (hiff.mp rfl) (by simp)
      · rfl

/-- Claim C6 witness: the completeness characterisation instantiated at a
concrete catalog where unit "g" has two files of product A and one of B. -/
theorem granule_unit_retained_iff_witness :
    ("g" ∈ (get_granule_metadata exKeyOf exProducts exQueryFn).1.map GranuleUnit.granule_key ↔
      ((∃ r ∈ taggedRows exKeyOf exProducts exQueryFn, r.granule_key = "g") ∧
        ∀ p ∈ exProducts, ∃ h ∈ exQueryFn p, exKeyOf h.granule_name = "g")) ∧
    (get_granule_metadata exKeyOf exProducts exQueryFn).2 =
      ((granuleKeys (taggedRows exKeyOf exProducts exQueryFn)).filter
        (fun k2 => !(exProducts.all (fun p =>
          (exQueryFn p).any (fun h => exKeyOf h.granule_name == k2))))).length :=
  granule_unit_retained_iff exKeyOf exProducts exQueryFn (by decide) "g"

/-- Claim C6 counterexample: with required products A and B, a unit carrying
two source files for product A (and one for B) is retained in the grouped
catalog output, although it does not have exactly one source file per
required product type - the completeness test only counts distinct product
types. -/
theorem granule_completeness_counterexample :
    (get_granule_metadata exKeyOf exProducts exQueryFn).1.map GranuleUnit.granule_key = ["g"] ∧
    ((taggedRows exKeyOf exProducts exQueryFn).filter
      (fun r => r.granule_key == "g" && r.product == "A")).length = 2 := by
  exact ⟨by decide, by decide⟩

/-- Claim C7 (code_bug evidence): the duplicate-validation query of
`scripts/check_tiles.py` is a plain string (missing f-prefix), so
`read_parquet` receives the literal characters of the placeholder.  On a
store holding the real metadata path, with a fresh snapshot whose fingerprint
for (N10_W060, O1_G1) differs from the stored one, `main` fails with the IO
error for the literal path - before the mismatch check runs and without
naming the implicated tile - even though the mismatched pair exists. -/
theorem check_tiles_literal_path_error :
    (mismatchedPairs [⟨"N10_W060", "O1_G1", "h1"⟩] [⟨"N10_W060", "O1_G1", "h2"⟩]).length = 1 ∧
    check_tiles_main
      [(metadata_spec "bucket" "prf", [⟨"N10_W060", "O1_G1", "h2"⟩])]
      "bucket" "prf"
      [⟨"N10_W060", "O1_G1", "h1"⟩] ["N10_W060"] =
      .error (.ioError "\x7bmd_spec\x7d") := by
  exact ⟨by decide, rfl⟩

/-- Claim C8 (code_bug evidence): the retry-on-failure path of
`load_granule_product` is a recursive self-call whose own failure is retried
again, not a single retry.  With reads failing on every attempt and recursion
headroom 10, eleven attempts are made before the recursion error propagates
(the claim implies two attempts and then a fatal error); with reads that
first succeed on the third attempt, the call succeeds after three attempts
instead of escalating after the second. -/
theorem load_granule_retry_unbounded :
    load_granule_product_attempts (fun _ => false) 10 0 = (false, 11) ∧
    load_granule_product_attempts (fun k => k == 2) 10 0 = (true, 3) := by
  exact ⟨rfl, rfl⟩

/-- Claim C10 (code_bug evidence): the metadata merge of `update_tiles.py`
partitions by `granule_id`, but the metadata snapshots written by
`tile_runner.py` carry `granule_key` and no `granule_id` column, so on its
own data the merge fails with a binder error and produces no merged rows. -/
theorem update_tiles_merge_binder_error :
    ("granule_id" ∉ metadataColumns) ∧
    update_tiles_merge metadataColumns
      [[("granule_key", "O1_G1"), ("tile_id", "N10_W060"),
        ("cmr_access_time", "2024-01-01 00:00:00+00")]]
      [[("granule_key", "O1_G1"), ("tile_id", "N10_W060"),
        ("cmr_access_time", "2024-05-01 00:00:00+00")]] =
      .error ("Binder Error: column not found: granule_id") := by
  exact ⟨by decide, rfl⟩

/-! ## Lemmas: shape coverage -/

theorem shapeSet_close_holes (env : GeomEnv) (shp : Shape) :
    shapeSet env shp ⊆ shapeSet env (close_holes shp) := by
  intro x hx
  simp only [shapeSet, rowSet, Set.mem_iUnion, exists_prop] at hx ⊢
  obtain ⟨row, hrow, p, hp, hxp⟩ := hx
  refine ⟨row.map (fun q => ⟨q.exterior, []⟩), ?_, ⟨p.exterior, []⟩, ?_, ?_⟩
  · exact List.mem_map_of_mem _ hrow
  · exact List.mem_map_of_mem _ hp
  · simp only [polySet] at hxp ⊢
    simp only [List.not_mem_nil, Set.iUnion_of_empty, Set.iUnion_empty,
      Set.diff_empty]
    exact hxp.1

theorem rowCoords_close (row : ShpRow) :
    rowCoords (row.map (fun p => (⟨p.exterior, []⟩ : ShpPolygon))) = rowCoords row := by
  simp [rowCoords, List.map_map, Function.comp_def]

theorem get_n_coords_close_holes (shp : Shape) :
    get_n_coords (close_holes shp) = get_n_coords shp := by
  rw [get_n_coords, get_n_coords, close_holes, List.map_map]
  congr 1
  simp only [Function.comp_def]
  exact List.map_congr_left (fun row _ => rowCoords_close row)

theorem shapeSet_orient (env : GeomEnv) (s : Shape) (cw : Bool)
    (hor : ∀ row, rowSet env (env.orientPolygons cw row) = rowSet env row) :
    shapeSet env (orient_shape env s cw) = shapeSet env s := by
  ext x
  simp only [shapeSet, orient_shape, Set.mem_iUnion, exists_prop, List.mem_map]
  constructor
  · rintro ⟨row, ⟨row0, hrow0, rfl⟩, hx⟩
    exact ⟨row0, hrow0, (hor row0) ▸ hx⟩
  · rintro ⟨row0, hrow0, hx⟩
    exact ⟨env.orientPolygons cw row0, ⟨row0, hrow0, rfl⟩, (hor row0).symm ▸ hx⟩

theorem get_n_coords_orient (env : GeomEnv) (s : Shape) (cw : Bool)
    (hcnt : ∀ row, rowCoords (env.orientPolygons cw row) = rowCoords row) :
    get_n_coords (orient_shape env s cw) = get_n_coords s := by
  simp [get_n_coords, orient_shape, List.map_map, Function.comp_def, hcnt]

theorem shapeSet_singleton (env : GeomEnv) (row : ShpRow) :
    shapeSet env [row] = rowSet env row := by
  simp [shapeSet]

theorem grid5_covers {x y : Rat}
    (h1 : -180 ≤ x) (h2 : x ≤ 180) (h3 : -90 ≤ y) (h4 : y ≤ 90) :
    ∃ b ∈ grid5, (b.minx : Rat) ≤ x ∧ x ≤ (b.maxx : Rat) ∧
      (b.miny : Rat) ≤ y ∧ y ≤ (b.maxy : Rat) := by
  have hm1 : (-180 : Int) ≤ ⌊x⌋ := Int.le_floor.mpr (by push_cast; exact h1)
  have hm2 : ⌊x⌋ ≤ 180 := by
    have h := Int.floor_le_floor h2
    simpa using h
  have hn1 : (-90 : Int) ≤ ⌈y⌉ := by
    have h := Int.ceil_le_ceil h3
    simpa using h
  have hn2 : ⌈y⌉ ≤ 90 := Int.ceil_le.mpr (by push_cast; exact h4)
  set m := ⌊x⌋ with hmdef
  set n := ⌈y⌉ with hndef
  set k1 : Nat := min 71 ((m + 180) / 5).toNat with hk1def
  set k2 : Nat := min 35 ((90 - n) / 5).toNat with hk2def
  set i : Int := -180 + 5 * (k1 : Int) with hidef
  set j : Int := 90 - 5 * (k2 : Int) with hjdef
  have hk1lt : k1 < 72 := by omega
  have hk2lt : k2 < 36 := by omega
  have hile : (i : Rat) ≤ x := by
    have him : i ≤ m := by omega
    calc (i : Rat) ≤ (m : Rat) := by exact_mod_cast him
      _ ≤ x := Int.floor_le x
  have hxle : x ≤ ((i + 5 : Int) : Rat) := by
    by_cases hc : (m + 180) / 5 ≤ 71
    · have hmi : m + 1 ≤ i + 5 := by omega
      have hx1 : x < ((m + 1 : Int) : Rat) := by
        push_cast
        exact Int.lt_floor_add_one x
      calc x ≤ ((m + 1 : Int) : Rat) := le_of_lt hx1
        _ ≤ ((i + 5 : Int) : Rat) := by exact_mod_cast hmi
    · have hi175 : i + 5 = 180 := by omega
      rw [hi175]
      push_cast
      exact h2
  have hjge : y ≤ (j : Rat) := by
    have hnj : n ≤ j := by omega
    calc y ≤ (n : Rat) := Int.le_ceil y
      _ ≤ (j : Rat) := by exact_mod_cast hnj
  have hjm5 : ((j - 5 : Int) : Rat) ≤ y := by
    by_cases hc : (90 - n) / 5 ≤ 35
    · have hjn : j - 5 ≤ n - 1 := by omega
      have hy1 : ((n - 1 : Int) : Rat) < y := by
        push_cast
        have := Int.ceil_lt_add_one y
        linarith
      calc ((j - 5 : Int) : Rat) ≤ ((n - 1 : Int) : Rat) := by exact_mod_cast hjn
        _ ≤ y := le_of_lt hy1
    · have hj5 : j - 5 = -90 := by omega
      rw [hj5]
      push_cast
      exact h3
  refine ⟨⟨i, j - 5, i + 5, j⟩, ?_, hile, hxle, hjm5, hjge⟩
  rw [grid5]
  refine List.mem_flatMap.mpr ⟨i, List.mem_map.mpr ⟨k1, List.mem_range.mpr hk1lt, hidef.symm⟩, ?_⟩
  exact List.mem_map.mpr ⟨j, List.mem_map.mpr ⟨k2, List.mem_range.mpr hk2lt, hjdef.symm⟩, rfl⟩

theorem covering_region_superset (env : GeomEnv) (shp : Shape)
    (hsj : ∀ b ∈ grid5, ∀ row ∈ shp, (boxSet b ∩ rowSet env row).Nonempty →
      env.sjoinPred b row = true)
    (hun : ∀ bs : List TileBounds, ∀ b ∈ bs, boxSet b ⊆ rowSet env (env.unionAll bs))
    (hworld : shapeSet env shp ⊆ worldSet) :
    shapeSet env shp ⊆ rowSet env (get_covering_region_for_shape env shp) := by
  intro q hq
  have hqw := hworld hq
  obtain ⟨hw1, hw2, hw3, hw4⟩ := hqw
  obtain ⟨b, hbmem, hb1, hb2, hb3, hb4⟩ := grid5_covers hw1 hw2 hw3 hw4
  have hqbox : q ∈ boxSet b := by
    obtain ⟨qx, qy⟩ := q
    exact ⟨hb1, hb2, hb3, hb4⟩
  obtain ⟨row, hrow, hqrow⟩ : ∃ row ∈ shp, q ∈ rowSet env row := by
    simp only [shapeSet, Set.mem_iUnion, exists_prop] at hq
    exact hq
  have hkept : b ∈ grid5.filter (fun b => shp.any (fun row => env.sjoinPred b row)) := by
    rw [List.mem_filter]
    refine ⟨hbmem, ?_⟩
    rw [List.any_eq_true]
    exact ⟨row, hrow, hsj b hbmem row hrow ⟨q, hqbox, hqrow⟩⟩
  exact hun _ b hkept hqbox

/-- Claim C4: `check_and_format_shape` returns a geometry covering at least
the input's region with exterior-coordinate count within the budget, or
raises: a DetailError (carrying the measured count) exactly when the input is
over budget and simplification is disabled, and the over-budget ValueError
exactly when simplification is enabled but even the coarsened 5-degree
covering exceeds the budget; with `max_coords ≤ 500` the max-coords
ValueError is impossible.  The geometry-library hypotheses are the invariants
the design requires of the external library: `sjoin` reports every box that
meets the shape, `union_all` covers every input box, and orientation changes
neither a row's region nor its coordinate count; `hworld` restricts to
shapes within the EPSG:4326 coordinate domain. -/
theorem check_and_format_shape_correct (env : GeomEnv) (shp : Shape)
    (simplify : Bool) (max_coords : Nat) (exterior_cw : Bool)
    (hmax : max_coords ≤ 500)
    (hsj : ∀ b ∈ grid5, ∀ row ∈ shp, (boxSet b ∩ rowSet env row).Nonempty →
      env.sjoinPred b row = true)
    (hun : ∀ bs : List TileBounds, ∀ b ∈ bs, boxSet b ⊆ rowSet env (env.unionAll bs))
    (horSet : ∀ cw row, rowSet env (env.orientPolygons cw row) = rowSet env row)
    (horCnt : ∀ cw row, rowCoords (env.orientPolygons cw row) = rowCoords row)
    (hworld : shapeSet env shp ⊆ worldSet) :
    (∀ out, check_and_format_shape env shp simplify max_coords exterior_cw = .ok out →
      shapeSet env shp ⊆ shapeSet env out ∧ get_n_coords out ≤ max_coords) ∧
    (∀ n, check_and_format_shape env shp simplify max_coords exterior_cw =
      .error (.detailError n) → simplify = false ∧ n = get_n_coords shp ∧ n > max_coords) ∧
    (∀ n, check_and_format_shape env shp simplify max_coords exterior_cw =
      .error (.valueErrorOverBudget n) →
        simplify = true ∧ get_n_coords shp > max_coords ∧ n > max_coords) ∧
    ¬ check_and_format_shape env shp simplify max_coords exterior_cw =
      .error .valueErrorMaxCoords := by
  have hout : ∀ s : Shape,
      shapeSet env (orient_shape env (close_holes s) exterior_cw) = shapeSet env (close_holes s) :=
    fun s => shapeSet_orient env (close_holes s) exterior_cw (horSet exterior_cw)
  have hcnt : ∀ s : Shape,
      get_n_coords (orient_shape env (close_holes s) exterior_cw) = get_n_coords s := by
    intro s
    rw [get_n_coords_orient env (close_holes s) exterior_cw (horCnt exterior_cw),
      get_n_coords_close_holes]
  rw [check_and_format_shape, if_neg (by omega)]
  by_cases hbudget : get_n_coords shp > max_coords
  · rw [if_pos hbudget]
    cases hsimp : simplify with
    | false =>
      rw [if_pos (show (!false) = true from rfl)]
      refine ⟨?_, ?_, ?_, ?_⟩
      · intro out hcontra
        simp [Except.map] at hcontra
      · intro nn hn
        simp [Except.map] at hn
        exact ⟨rfl, by omega, by omega⟩
      · intro nn hn
        simp [Except.map] at hn
      · intro hn
        simp [Except.map] at hn
    | true =>
      rw [if_neg (show ¬ (!true) = true from by decide)]
      by_cases hover : get_n_coords [get_covering_region_for_shape env shp] > max_coords
      · rw [if_pos hover]
        refine ⟨?_, ?_, ?_, ?_⟩
        · intro out hcontra
          simp [Except.map] at hcontra
        · intro nn hn
          simp [Except.map] at hn
        · intro nn hn
          simp [Except.map] at hn
          exact ⟨rfl, hbudget, by omega⟩
        · intro hn
          simp [Except.map] at hn
      · rw [if_neg hover]
        refine ⟨?_, ?_, ?_, ?_⟩
        · intro out hok
          simp only [Except.map, Except.ok.injEq] at hok
          subst hok
          constructor
          · intro q hq
            rw [hout]
            apply shapeSet_close_holes
            rw [shapeSet_singleton]
            exact covering_region_superset env shp hsj hun hworld hq
          · rw [hcnt]
            omega
        · intro nn hn
          simp [Except.map] at hn
        · intro nn hn
          simp [Except.map] at hn
        · intro hn
          simp [Except.map] at hn
  · rw [if_neg hbudget]
    refine ⟨?_, ?_, ?_, ?_⟩
    · intro out hok
      simp only [Except.map, Except.ok.injEq] at hok
      subst hok
      constructor
      · rw [hout]
        exact shapeSet_close_holes env shp
      · rw [hcnt]
        omega
    · intro nn hn
      simp [Except.map] at hn
    · intro nn hn
      simp [Except.map] at hn
    · intro hn
      simp [Except.map] at hn

/-- Claim C4 witness: the correctness theorem instantiated at the concrete
geometry environment and the square example shape, with simplification
disabled and the default budget of 500. -/
theorem check_and_format_shape_correct_witness :
    (∀ out, check_and_format_shape exGeomEnv exShape false 500 true = .ok out →
      shapeSet exGeomEnv exShape ⊆ shapeSet exGeomEnv out ∧ get_n_coords out ≤ 500) ∧
    (∀ n, check_and_format_shape exGeomEnv exShape false 500 true =
      .error (.detailError n) → false = false ∧ n = get_n_coords exShape ∧ n > 500) ∧
    (∀ n, check_and_format_shape exGeomEnv exShape false 500 true =
      .error (.valueErrorOverBudget n) →
        false = true ∧ get_n_coords exShape > 500 ∧ n > 500) ∧
    ¬ check_and_format_shape exGeomEnv exShape false 500 true =
      .error .valueErrorMaxCoords := by
  refine check_and_format_shape_correct exGeomEnv exShape false 500 true (by decide)
    ?_ ?_ ?_ ?_ ?_
  · intro b _ row _ _
    rfl
  · intro bs b _
    intro q _
    simp [exGeomEnv, rowSet, polySet]
  · intro cw row
    rfl
  · intro cw row
    rfl
  · intro q hq
    exfalso
    simp only [exShape, shapeSet, rowSet, polySet, exGeomEnv, Set.mem_iUnion,
      exists_prop, List.mem_singleton] at hq
    obtain ⟨row, hrow, p, hp, hqp⟩ := hq
    subst hrow
    rw [List.mem_singleton] at hp
    subst hp
    simp at hqp

/-! ## Lemmas: crossover candidate pipeline -/

theorem countP_flatMap {α β : Type} (l : List α) (f : α → List β) (pr : β → Bool) :
    (l.flatMap f).countP pr = (l.map (fun a => (f a).countP pr)).sum := by
  rw [List.flatMap_def, List.countP_flatten, List.map_map]
  rfl

theorem sum_map_flatMap {α β : Type} (l : List α) (f : α → List β) (g : β → Nat) :
    ((l.flatMap f).map g).sum = (l.map (fun a => ((f a).map g).sum)).sum := by
  rw [List.flatMap_def, List.map_flatten, List.sum_flatten, List.map_map, List.map_map]
  rfl

theorem sum_map_single {α : Type} [DecidableEq α] (l : List α) (f : α → Nat) (p : α)
    (hf : ∀ a ∈ l, a ≠ p → f a = 0) (hcount : l.count p = 1) : (l.map f).sum = f p := by
  induction l with
  | nil => simp at hcount
  | cons a t ih =>
    by_cases hap : a = p
    · subst hap
      rw [List.count_cons_self] at hcount
      have ht0 : t.count a = 0 := by omega
      have hzero : ∀ b ∈ t, f b = 0 := by
        intro b hb
        refine hf b (List.mem_cons_of_mem a hb) ?_
        intro hbp
        subst hbp
        rw [List.count_eq_zero] at ht0
        exact ht0 hb
      have hts : (t.map f).sum = 0 := by
        apply List.sum_eq_zero
        intro x hx
        obtain ⟨b, hb, rfl⟩ := List.mem_map.mp hx
        exact hzero b hb
      rw [List.map_cons, List.sum_cons, hts]
      omega
    · have hpa : p ≠ a := fun h => hap h.symm
      rw [List.count_cons_of_ne hpa] at hcount
      have hfa : f a = 0 := hf a (List.mem_cons_self _ _) hap
      rw [List.map_cons, List.sum_cons, hfa, Nat.zero_add]
      exact ih (fun b hb hbp => hf b (List.mem_cons_of_mem a hb) hbp) hcount

theorem mem_ptsTable {env : CrossoverEnv} {table : List FootShot} {s : FootShot} :
    s ∈ ptsTable env table ↔ s ∈ table ∧ passesFilter env s = true :=
  List.mem_filter

theorem ptsTable_shot_nodup {env : CrossoverEnv} {table : List FootShot}
    (htn : (table.map FootShot.shot_number).Nodup) :
    ((ptsTable env table).map FootShot.shot_number).Nodup :=
  htn.sublist (List.Sublist.map _ (List.filter_sublist table))

theorem table_shot_inj {table : List FootShot}
    (htn : (table.map FootShot.shot_number).Nodup) {a b : FootShot}
    (ha : a ∈ table) (hb : b ∈ table)
    (hs : a.shot_number = b.shot_number) : a = b :=
  List.inj_on_of_nodup_map htn ha hb hs

theorem countP_shot_unique {l : List FootShot}
    (hnd : (l.map FootShot.shot_number).Nodup) {q : FootShot} (hq : q ∈ l)
    (R : FootShot → Bool) :
    l.countP (fun t => (t.shot_number == q.shot_number) && R t) =
      if R q then 1 else 0 := by
  induction l with
  | nil => cases hq
  | cons a t ih =>
    rw [List.map_cons, List.nodup_cons] at hnd
    obtain ⟨hna, hnt⟩ := hnd
    rcases List.mem_cons.mp hq with rfl | hqt
    · rw [List.countP_cons]
      have hzero : t.countP (fun x => (x.shot_number == q.shot_number) && R x) = 0 := by
        rw [List.countP_eq_zero]
        intro x hx
        have hxs : x.shot_number ≠ q.shot_number := by
          intro he
          exact hna (by rw [← he]; exact List.mem_map_of_mem _ hx)
        simp [hxs]
      rw [hzero]
      by_cases hR : R q = true
      · simp [hR]
      · simp [hR]
    · have hne : a.shot_number ≠ q.shot_number := by
        intro he
        exact hna (he ▸ List.mem_map_of_mem _ hqt)
      rw [List.countP_cons]
      have hfalse : ((a.shot_number == q.shot_number) && R a) = false := by
        simp [hne]
      rw [hfalse]
      simp only [Bool.false_eq_true, if_false, Nat.add_zero]
      exact ih hnt hqt

theorem mem_pairRows {env : CrossoverEnv} {table : List FootShot} {threshold : Rat}
    {r : FootShot × FootShot} (h : r ∈ pairRows env table threshold) :
    r.1 ∈ ptsTable env table ∧ r.2 ∈ ptsTable env table ∧
      r.1.shot_number < r.2.shot_number := by
  rw [pairRows, List.mem_filter] at h
  obtain ⟨hj, _⟩ := h
  rw [joinedPairs, List.mem_flatMap] at hj
  obtain ⟨tc, htc, hr⟩ := hj
  rw [List.mem_map] at hr
  obtain ⟨t2, ht2, rfl⟩ := hr
  rw [List.mem_filter] at ht2
  obtain ⟨ht2pts, ht2cond⟩ := ht2
  rw [Bool.and_eq_true, decide_eq_true_eq] at ht2cond
  rw [ptsExpanded, List.mem_flatMap] at htc
  obtain ⟨t1, ht1, htcmem⟩ := htc
  rw [List.mem_map] at htcmem
  obtain ⟨c, _, rfl⟩ := htcmem
  exact ⟨ht1, ht2pts, ht2cond.1⟩

theorem pairRows_count (env : CrossoverEnv) (table : List FootShot) (threshold : Rat)
    (htn : (table.map FootShot.shot_number).Nodup)
    {p q : FootShot}
    (hp : p ∈ table) (hq : q ∈ table)
    (hpf : passesFilter env p = true) (hqf : passesFilter env q = true)
    (hlt : p.shot_number < q.shot_number)
    (hdiskNd : ∀ c, (env.gridDisk c).Nodup)
    (hmemdisk : shotCell env q ∈ env.gridDisk (shotCell env p))
    (hdist : env.distSpheroid p.lat p.lon q.lat q.lon ≤ threshold) :
    (pairRows env table threshold).countP
      (fun r => r.1.shot_number == p.shot_number &&
        r.2.shot_number == q.shot_number) = 1 := by
  have hpmem : p ∈ ptsTable env table := mem_ptsTable.mpr ⟨hp, hpf⟩
  have hqmem : q ∈ ptsTable env table := mem_ptsTable.mpr ⟨hq, hqf⟩
  have hptsnd : ((ptsTable env table).map FootShot.shot_number).Nodup :=
    ptsTable_shot_nodup htn
  have hptsel : (ptsTable env table).Nodup := hptsnd.of_map _
  have hinj : ∀ a ∈ ptsTable env table, ∀ b ∈ ptsTable env table,
      a.shot_number = b.shot_number → a = b := by
    intro a ha b hb hs
    exact table_shot_inj htn (mem_ptsTable.mp ha).1 (mem_ptsTable.mp hb).1 hs
  rw [pairRows, List.countP_filter, joinedPairs, countP_flatMap]
  have hstep : ∀ tc : FootShot × Int,
      (((ptsTable env table).filter
        (fun t2 => tc.1.shot_number < t2.shot_number && shotCell env t2 == tc.2)).map
        (fun t2 => (tc.1, t2))).countP
        (fun r => (r.1.shot_number == p.shot_number &&
          r.2.shot_number == q.shot_number) &&
          decide (env.distSpheroid r.1.lat r.1.lon r.2.lat r.2.lon ≤ threshold)) =
      (ptsTable env table).countP
        (fun t2 => ((tc.1.shot_number == p.shot_number &&
          t2.shot_number == q.shot_number) &&
          decide (env.distSpheroid tc.1.lat tc.1.lon t2.lat t2.lon ≤ threshold)) &&
          (tc.1.shot_number < t2.shot_number && shotCell env t2 == tc.2)) := by
    intro tc
    rw [List.countP_map, List.countP_filter]
    rfl
  simp only [hstep]
  rw [ptsExpanded, sum_map_flatMap]
  have hzeroF : ∀ t1 ∈ ptsTable env table, t1 ≠ p →
      (((env.gridDisk (shotCell env t1)).map (fun c => (t1, c))).map
        (fun tc => (ptsTable env table).countP
          (fun t2 => ((tc.1.shot_number == p.shot_number &&
            t2.shot_number == q.shot_number) &&
            decide (env.distSpheroid tc.1.lat tc.1.lon t2.lat t2.lon ≤ threshold)) &&
            (tc.1.shot_number < t2.shot_number && shotCell env t2 == tc.2)))).sum = 0 := by
    intro t1 ht1 hne
    apply List.sum_eq_zero
    intro x hx
    rw [List.map_map, List.mem_map] at hx
    obtain ⟨c, _, rfl⟩ := hx
    rw [Function.comp_apply, List.countP_eq_zero]
    intro t2 _
    have hs1 : t1.shot_number ≠ p.shot_number := by
      intro he
      exact hne (hinj t1 ht1 p hpmem he)
    simp [hs1]
  have hcountp : (ptsTable env table).count p = 1 :=
    List.count_eq_one_of_mem hptsel hpmem
  rw [sum_map_single _ _ p ?hzero hcountp]
  case hzero =>
    intro a ha hne
    exact hzeroF a ha hne
  rw [List.map_map]
  have hinner : ∀ c ∈ env.gridDisk (shotCell env p),
      ((fun tc : FootShot × Int => (ptsTable env table).countP
        (fun t2 => ((tc.1.shot_number == p.shot_number &&
          t2.shot_number == q.shot_number) &&
          decide (env.distSpheroid tc.1.lat tc.1.lon t2.lat t2.lon ≤ threshold)) &&
          (tc.1.shot_number < t2.shot_number && shotCell env t2 == tc.2))) ∘
        (fun c => (p, c))) c =
      (if shotCell env q == c then 1 else 0) := by
    intro c _
    rw [Function.comp_apply]
    have hcongr : (ptsTable env table).countP
        (fun t2 => ((p.shot_number == p.shot_number &&
          t2.shot_number == q.shot_number) &&
          decide (env.distSpheroid p.lat p.lon t2.lat t2.lon ≤ threshold)) &&
          (p.shot_number < t2.shot_number && shotCell env t2 == c)) =
        (ptsTable env table).countP
          (fun t2 => (t2.shot_number == q.shot_number) &&
            (decide (env.distSpheroid p.lat p.lon t2.lat t2.lon ≤ threshold) &&
              (p.shot_number < t2.shot_number && shotCell env t2 == c))) := by
      apply List.countP_congr
      intro t2 _
      cases h1 : (t2.shot_number == q.shot_number) <;>
        cases h2 : decide (env.distSpheroid p.lat p.lon t2.lat t2.lon ≤ threshold) <;>
        cases h3 : decide (p.shot_number < t2.shot_number) <;>
        cases h4 : (shotCell env t2 == c) <;>
        simp [h1, h2, h3, h4]
    rw [hcongr, countP_shot_unique hptsnd hqmem]
    have hdq : decide (env.distSpheroid p.lat p.lon q.lat q.lon ≤ threshold) = true :=
      decide_eq_true hdist
    have hlq : decide (p.shot_number < q.shot_number) = true := decide_eq_true hlt
    rw [hdq, hlq]
    simp only [Bool.true_and]
  rw [List.map_congr_left hinner]
  rw [sum_map_single _ _ (shotCell env q) ?hz2 (List.count_eq_one_of_mem (hdiskNd _) hmemdisk)]
  case hz2 =>
    intro c _ hne
    rw [if_neg]
    intro hcq
    exact hne (eq_of_beq hcq).symm
  rw [if_pos (beq_self_eq_true _)]

theorem passesFilter_of (env : CrossoverEnv) {s : FootShot}
    (hc : env.contains s = true) (ht : s.tile_id ∈ env.coveringIds)
    (he : env.extraFilter s = true) : passesFilter env s = true := by
  rw [passesFilter, Bool.and_eq_true, Bool.and_eq_true]
  refine ⟨⟨hc, ?_⟩, he⟩
  simp only [List.contains, List.elem_eq_mem]
  exact decide_eq_true ht

/-- Claim C1: for every point dataset with distinct shot numbers and every
query region below the area cap, and any two distinct points passing the
region filter whose spheroidal distance is at most the threshold (itself
below the validated maximum supported distance), `find_repeat_footprints`
emits that pair exactly once, in canonical order `shot_number_1 <
shot_number_2`, regardless of where the points sit in the source table; every
emitted row is canonically ordered, so no self-pair and no reciprocal
duplicate occurs.  The hypotheses on the external collaborators are the
documented contracts: the spheroidal distance is symmetric, `h3_grid_disk`
returns duplicate-free cell lists, and the validated index bound holds - any
two points within `MAX_DISTANCE_M` share a cell or sit within each other's
2-ring (the guarantee `MAX_DISTANCE_M` was derived for); `htp`/`htq` are the
store invariant that a row's `tile_id` partition key is a covering tile of
any region containing the point. -/
theorem crossover_pair_exactly_once (env : CrossoverEnv) (table : List FootShot)
    (threshold : Rat) {p q : FootShot}
    (hdistSym : ∀ la lo lb lob,
      env.distSpheroid la lo lb lob = env.distSpheroid lb lob la lo)
    (hdiskNd : ∀ c, (env.gridDisk c).Nodup)
    (hvalid : ∀ a b : FootShot,
      env.distSpheroid a.lat a.lon b.lat b.lon ≤ env.maxDistanceM →
      shotCell env b ∈ env.gridDisk (shotCell env a))
    (harea : ¬ env.area > 9) (hthr : threshold < env.maxDistanceM)
    (htn : (table.map FootShot.shot_number).Nodup)
    (hp : p ∈ table) (hq : q ∈ table) (hne : p.shot_number ≠ q.shot_number)
    (hcp : env.contains p = true) (hcq : env.contains q = true)
    (htp : p.tile_id ∈ env.coveringIds) (htq : q.tile_id ∈ env.coveringIds)
    (hep : env.extraFilter p = true) (heq2 : env.extraFilter q = true)
    (hd : env.distSpheroid p.lat p.lon q.lat q.lon ≤ threshold) :
    ∃ out, find_repeat_footprints env table threshold = Except.ok out ∧
      out.countP (fun r => r.1.shot_number == min p.shot_number q.shot_number &&
        r.2.shot_number == max p.shot_number q.shot_number) = 1 ∧
      ∀ r ∈ out, r.1.shot_number < r.2.shot_number := by
  have hok : find_repeat_footprints env table threshold =
      .ok (pairRows env table threshold) := by
    rw [find_repeat_footprints, if_neg harea, if_neg (not_not_intro hthr)]
  have hpf : passesFilter env p = true := passesFilter_of env hcp htp hep
  have hqf : passesFilter env q = true := passesFilter_of env hcq htq heq2
  refine ⟨pairRows env table threshold, hok, ?_, ?_⟩
  · rcases Nat.lt_or_ge p.shot_number q.shot_number with hlt | hge
    · have hmin : min p.shot_number q.shot_number = p.shot_number :=
        Nat.min_eq_left (le_of_lt hlt)
      have hmax : max p.shot_number q.shot_number = q.shot_number :=
        Nat.max_eq_right (le_of_lt hlt)
      simp only [hmin, hmax]
      exact pairRows_count env table threshold htn hp hq hpf hqf hlt hdiskNd
        (hvalid p q (le_trans hd (le_of_lt hthr))) hd
    · have hlt : q.shot_number < p.shot_number := by omega
      have hmin : min p.shot_number q.shot_number = q.shot_number :=
        Nat.min_eq_right (le_of_lt hlt)
      have hmax : max p.shot_number q.shot_number = p.shot_number :=
        Nat.max_eq_left (le_of_lt hlt)
      simp only [hmin, hmax]
      have hd2 : env.distSpheroid q.lat q.lon p.lat p.lon ≤ threshold := by
        rw [hdistSym]
        exact hd
      exact pairRows_count env table threshold htn hq hp hqf hpf hlt hdiskNd
        (hvalid q p (le_trans hd2 (le_of_lt hthr))) hd2
  · intro r hr
    exact (mem_pairRows hr).2.2

/-- Claim C1 witness: two shots 0 metres apart in a one-cell index are
reported exactly once, in canonical order. -/
theorem crossover_pair_exactly_once_witness :
    ∃ out, find_repeat_footprints exCrossEnv exShots (mkRat 1 2) = Except.ok out ∧
      out.countP (fun r => r.1.shot_number == min 1 2 &&
        r.2.shot_number == max 1 2) = 1 ∧
      ∀ r ∈ out, r.1.shot_number < r.2.shot_number := by
  exact @crossover_pair_exactly_once exCrossEnv exShots (mkRat 1 2)
    ⟨1, 0, 0, "T"⟩ ⟨2, 0, 0, "T"⟩
    (fun _ _ _ _ => rfl) (fun c => List.nodup_singleton c)
    (fun a b _ => by simp [shotCell, exCrossEnv])
    (by decide) (by decide) (by decide)
    (by decide) (by decide) (by decide)
    (by decide) (by decide) (by decide) (by decide)
    (by decide) (by decide) (by decide)

/-- Claim C9: every pair emitted by `find_repeat_footprints` has both of its
points passing the region-containment filter (which is applied to each point
individually before candidate expansion), and no emitted row involves a
point that fails the filter - in particular, a within-threshold pair with
one point inside and one point outside the region produces no output row. -/
theorem crossover_pairs_inside_region (env : CrossoverEnv) (table : List FootShot)
    (threshold : Rat) {q : FootShot}
    (harea : ¬ env.area > 9) (hthr : threshold < env.maxDistanceM)
    (htn : (table.map FootShot.shot_number).Nodup)
    (hq : q ∈ table) (hcq : env.contains q = false) :
    ∃ out, find_repeat_footprints env table threshold = Except.ok out ∧
      (∀ r ∈ out, env.contains r.1 = true ∧ env.contains r.2 = true) ∧
      out.countP (fun r => r.1.shot_number == q.shot_number ||
        r.2.shot_number == q.shot_number) = 0 := by
  have hok : find_repeat_footprints env table threshold =
      .ok (pairRows env table threshold) := by
    rw [find_repeat_footprints, if_neg harea, if_neg (not_not_intro hthr)]
  have hcontains : ∀ s ∈ ptsTable env table, env.contains s = true := by
    intro s hs
    have h := (mem_ptsTable.mp hs).2
    rw [passesFilter, Bool.and_eq_true, Bool.and_eq_true] at h
    exact h.1.1
  refine ⟨pairRows env table threshold, hok, ?_, ?_⟩
  · intro r hr
    have hm := mem_pairRows hr
    exact ⟨hcontains r.1 hm.1, hcontains r.2 hm.2.1⟩
  · rw [List.countP_eq_zero]
    intro r hr hpred
    have hm := mem_pairRows hr
    rw [Bool.or_eq_true] at hpred
    rcases hpred with h | h
    · have hrq : r.1 = q :=
        table_shot_inj htn (mem_ptsTable.mp hm.1).1 hq (eq_of_beq h)
      have hct : env.contains q = true := hrq ▸ hcontains r.1 hm.1
      rw [hcq] at hct
      exact absurd hct (by decide)
    · have hrq : r.2 = q :=
        table_shot_inj htn (mem_ptsTable.mp hm.2.1).1 hq (eq_of_beq h)
      have hct : env.contains q = true := hrq ▸ hcontains r.2 hm.2.1
      rw [hcq] at hct
      exact absurd hct (by decide)

/-- Claim C9 witness: with only shot 1 inside the region, the run succeeds
and emits no row involving shot 2. -/
theorem crossover_pairs_inside_region_witness :
    ∃ out, find_repeat_footprints exCrossEnvPartial exShots (mkRat 1 2) = Except.ok out ∧
      (∀ r ∈ out, exCrossEnvPartial.contains r.1 = true ∧
        exCrossEnvPartial.contains r.2 = true) ∧
      out.countP (fun r => r.1.shot_number == 2 ||
        r.2.shot_number == 2) = 0 := by
  exact @crossover_pairs_inside_region exCrossEnvPartial exShots (mkRat 1 2)
    ⟨2, 0, 0, "T"⟩
    (by decide) (by decide) (by decide) (by decide) (by decide)

end GediTiler
